import Mathlib

/-!
Verification of the zentube in-memory TTL cache (internal/cache/cache.go)
and the search use case (internal/usecases/search_videos.go).

Time values (time.Time, time.Duration) are modelled as Int (nanoseconds);
the Go map map[string]*cacheItem is modelled as an association list in
insertion order (Go map iteration order is unspecified; the embedding picks
this fixed order, which only matters for tie-breaking inside evictOldest).
The two separate time.Now() calls inside SetWithTTL are collapsed into a
single now parameter.
-/

namespace Zentube

/-- entities.Video (internal/entities/search_history.go). -/
structure Video where
  id : String
  title : String
  channel : String
  publishedAt : Int
  thumbnail : String
deriving DecidableEq

/-- cacheItem: value, expiration (absolute), createdAt. -/
structure CacheItem (α : Type) where
  value : α
  expiration : Int
  createdAt : Int
deriving DecidableEq

/-- Cache: the items map (as an association list), maxEntries, defaultTTL.
The sync.RWMutex and the cleanup goroutine handle concurrency and are not
part of the sequential state. -/
structure Cache (α : Type) where
  items : List (String × CacheItem α)
  maxEntries : Int
  defaultTTL : Int
deriving DecidableEq

variable {α : Type}

/-- Go map read items[key]: first matching binding. -/
def mapGet (l : List (String × CacheItem α)) (k : String) : Option (CacheItem α) :=
  match l with
  | [] => none
  | (k', it) :: rest => if k' = k then some it else mapGet rest k

/-- Go map write items[key] = item: replace in place, else append. -/
def mapInsert (l : List (String × CacheItem α)) (k : String) (it : CacheItem α) :
    List (String × CacheItem α) :=
  match l with
  | [] => [(k, it)]
  | (k', it') :: rest => if k' = k then (k, it) :: rest else (k', it') :: mapInsert rest k it

/-- Go delete(items, key): removes the binding of key. -/
def mapDelete (l : List (String × CacheItem α)) (k : String) : List (String × CacheItem α) :=
  match l with
  | [] => []
  | (k', it') :: rest => if k' = k then rest else (k', it') :: mapDelete rest k

/-- NewCache(maxEntries, defaultTTL): empty items map.  The cleanup
goroutine it spawns is modelled separately as removeExpired. -/
def NewCache (α : Type) (maxEntries : Int) (defaultTTL : Int) : Cache α :=
  ⟨[], maxEntries, defaultTTL⟩

/-- The loop body of evictOldest: oldestKey starts as "" and also acts as
the "nothing picked yet" sentinel, exactly as in the Go source. -/
def scanStep (acc : String × Int) (kv : String × CacheItem α) : String × Int :=
  if acc.1 = "" ∨ kv.2.createdAt < acc.2 then (kv.1, kv.2.createdAt) else acc

/-- The scan inside evictOldest: fold over the items. -/
def oldestScan (l : List (String × CacheItem α)) : String × Int :=
  l.foldl scanStep ("", 0)

/-- Cache.evictOldest: scan for the minimal-createdAt key (oldestKey), and
delete it only when the found key is nonempty. -/
def evictOldest (c : Cache α) : Cache α :=
  if (oldestScan c.items).1 ≠ "" then
    { c with items := mapDelete c.items (oldestScan c.items).1 }
  else c

/-- Cache.SetWithTTL: evict when maxEntries > 0 and len(items) >= maxEntries,
then insert with expiration = now + ttl and createdAt = now. -/
def setWithTTL (c : Cache α) (key : String) (value : α) (ttl : Int) (now : Int) : Cache α :=
  let c1 := if 0 < c.maxEntries ∧ c.maxEntries ≤ (c.items.length : Int) then evictOldest c else c
  { c1 with items := mapInsert c1.items key ⟨value, now + ttl, now⟩ }

/-- Cache.Set: SetWithTTL with the default TTL. -/
def set (c : Cache α) (key : String) (value : α) (now : Int) : Cache α :=
  setWithTTL c key value c.defaultTTL now

/-- Cache.Get: none when absent, none when time.Now().After(expiration)
(strict), else the value. -/
def get (c : Cache α) (key : String) (now : Int) : Option α :=
  match mapGet c.items key with
  | none => none
  | some it => if it.expiration < now then none else some it.value

/-- Cache.Len: number of items. -/
def len (c : Cache α) : Nat :=
  c.items.length

/-- Cache.removeExpired (run by the cleanup goroutine): delete every entry
with now.After(expiration). -/
def removeExpired (c : Cache α) (now : Int) : Cache α :=
  { c with items := c.items.filter (fun p => decide (now ≤ p.2.expiration)) }

/-- A sequence of Set calls (key, value, time), applied left to right. -/
def setAll (c : Cache α) : List (String × α × Int) → Cache α
  | [] => c
  | op :: rest => setAll (set c op.1 op.2.1 op.2.2) rest

/-! ### GenerateKey and toString -/

/-- A dynamically typed part passed to GenerateKey (Go interface value).
The source switches on string, int and int64; unsupported stands for a
value of any other dynamic type (for example a bool). -/
inductive Part where
  | str : String → Part
  | int : Int → Part
  | int64 : Int → Part
  | unsupported : Part
deriving DecidableEq

/-- Go rune(v) on an int or int64: truncation to int32. -/
def toInt32 (v : Int) : Int :=
  (v + 2 ^ 31) % 2 ^ 32 - 2 ^ 31

/-- Go string(r) on a rune: the one-character string of the code point,
or "\uFFFD" when the value is negative, a surrogate, or above 0x10FFFF. -/
def goRuneString (v : Int) : String :=
  let r := toInt32 v
  if h : 0 ≤ r ∧ r < 55296 ∨ 57344 ≤ r ∧ r ≤ 1114111 then
    String.singleton (Char.ofNat r.toNat)
  else
    "\uFFFD"

/-- toString (cache.go): string parts pass through, int and int64 parts go
through string(rune(val)), anything else becomes the empty string. -/
def toString : Part → String
  | .str s => s
  | .int v => goRuneString v
  | .int64 v => goRuneString v
  | .unsupported => ""

/-- UTF-8 bytes of one character (h.Write receives UTF-8 bytes of the Go
string). -/
def utf8Bytes (c : Char) : List Nat :=
  let n := c.toNat
  if n < 128 then [n]
  else if n < 2048 then [192 + n / 64, 128 + n % 64]
  else if n < 65536 then [224 + n / 4096, 128 + n / 64 % 64, 128 + n % 64]
  else [240 + n / 262144, 128 + n / 4096 % 64, 128 + n / 64 % 64, 128 + n % 64]

/-- UTF-8 bytes of a string. -/
def strBytes (s : String) : List Nat :=
  (s.data.map utf8Bytes).join

/-! SHA-256 over byte lists, 32-bit words as Nat reduced mod 2^32. -/

def w32 (n : Nat) : Nat := n % 4294967296

def add32 (a b : Nat) : Nat := (a + b) % 4294967296

def rotr32 (n x : Nat) : Nat := w32 (x >>> n ||| x <<< (32 - n))

def ch32 (x y z : Nat) : Nat := (x &&& y) ^^^ ((4294967295 ^^^ x) &&& z)

def maj32 (x y z : Nat) : Nat := (x &&& y) ^^^ (x &&& z) ^^^ (y &&& z)

def sigBig0 (x : Nat) : Nat := rotr32 2 x ^^^ rotr32 13 x ^^^ rotr32 22 x

def sigBig1 (x : Nat) : Nat := rotr32 6 x ^^^ rotr32 11 x ^^^ rotr32 25 x

def sigSmall0 (x : Nat) : Nat := rotr32 7 x ^^^ rotr32 18 x ^^^ (x >>> 3)

def sigSmall1 (x : Nat) : Nat := rotr32 17 x ^^^ rotr32 19 x ^^^ (x >>> 10)

/-- The 64 SHA-256 round constants of FIPS 180-4, in decimal. -/
def K256 : List Nat :=
  [1116352408, 1899447441, 3049323471, 3921009573,
   961987163, 1508970993, 2453635748, 2870763221,
   3624381080, 310598401, 607225278, 1426881987,
   1925078388, 2162078206, 2614888103, 3248222580,
   3835390401, 4022224774, 264347078, 604807628,
   770255983, 1249150122, 1555081692, 1996064986,
   2554220882, 2821834349, 2952996808, 3210313671,
   3336571891, 3584528711, 113926993, 338241895,
   666307205, 773529912, 1294757372, 1396182291,
   1695183700, 1986661051, 2177026350, 2456956037,
   2730485921, 2820302411, 3259730800, 3345764771,
   3516065817, 3600352804, 4094571909, 275423344,
   430227734, 506948616, 659060556, 883997877,
   958139571, 1322822218, 1537002063, 1747873779,
   1955562222, 2024104815, 2227730452, 2361852424,
   2428436474, 2756734187, 3204031479, 3329325298]

/-- The SHA-256 initial hash value of FIPS 180-4, in decimal. -/
def H256 : List Nat :=
  [1779033703, 3144134277, 1013904242, 2773480762,
   1359893119, 2600822924, 528734635, 1541459225]

/-- Big-endian byte expansion to a fixed width. -/
def beBytes (numBytes : Nat) (v : Nat) : List Nat :=
  match numBytes with
  | 0 => []
  | n + 1 => beBytes n (v / 256) ++ [v % 256]

/-- SHA-256 padding: 0x80, zeros to 56 mod 64, 64-bit big-endian bit length. -/
def sha256Pad (msg : List Nat) : List Nat :=
  let L := msg.length
  msg ++ [128] ++ List.replicate ((119 - L % 64) % 64) 0 ++ beBytes 8 (8 * L)

/-- Group bytes into big-endian 32-bit words. -/
def toWords : List Nat → List Nat
  | a :: b :: c :: d :: rest => (a * 16777216 + b * 65536 + c * 256 + d) :: toWords rest
  | _ => []

/-- Split a word list into blocks of 16. -/
def chunks16 (ws : List Nat) : List (List Nat) :=
  if h : ws.length < 16 then [] else ws.take 16 :: chunks16 (ws.drop 16)
termination_by ws.length
decreasing_by simp only [List.length_drop]; omega

/-- Extend a 16-word block to the 64-word message schedule. -/
def extendSchedule (w : List Nat) : Nat → List Nat
  | 0 => w
  | n + 1 =>
    let t := w.length
    let nw := add32 (add32 (sigSmall1 (w.getD (t - 2) 0)) (w.getD (t - 7) 0))
                    (add32 (sigSmall0 (w.getD (t - 15) 0)) (w.getD (t - 16) 0))
    extendSchedule (w ++ [nw]) n

/-- One SHA-256 compression round on the eight-word state. -/
def round256 (st : List Nat) (k w : Nat) : List Nat :=
  match st with
  | [a, b, c, d, e, f, g, h] =>
    let t1 := add32 h (add32 (sigBig1 e) (add32 (ch32 e f g) (add32 k w)))
    let t2 := add32 (sigBig0 a) (maj32 a b c)
    [add32 t1 t2, a, b, c, add32 d t1, e, f, g]
  | _ => st

/-- Compress one 16-word block into the running hash. -/
def compressBlock (H : List Nat) (block : List Nat) : List Nat :=
  let w := extendSchedule block 48
  let st := (K256.zip w).foldl (fun s kw => round256 s kw.1 kw.2) H
  (H.zip st).map (fun p => add32 p.1 p.2)

/-- SHA-256 digest (32 bytes) of a byte list. -/
def sha256 (msg : List Nat) : List Nat :=
  let Hf := (chunks16 (toWords (sha256Pad msg))).foldl compressBlock H256
  (Hf.map (beBytes 4)).join

/-- Lowercase hex digit. -/
def hexDigit (n : Nat) : Char :=
  if n < 10 then Char.ofNat (48 + n) else Char.ofNat (87 + n)

/-- hex.EncodeToString on a byte list. -/
def hexEncode (bs : List Nat) : String :=
  String.mk ((bs.map (fun b => [hexDigit (b / 16), hexDigit (b % 16)])).join)

/-- GenerateKey (cache.go): sha256 of the concatenation of each part's
toString form, hex encoded. -/
def GenerateKey (parts : List Part) : String :=
  hexEncode (sha256 ((parts.map (fun p => strBytes (Zentube.toString p))).join))

/-! ### SearchVideos.Execute (internal/usecases/search_videos.go)

The orchestrator constructed by NewSearchVideos always carries a non-nil
cache, so the modelled Execute is the s.cache != nil branch.  The stored
interface value is type-asserted to a video slice on read; CacheVal.other
stands for a stored value of any other dynamic type (the assertion fails
and control falls through to the upstream call).  The history goroutine
only writes to the history repository — never to the cache or to the
returned values — so it does not appear in the modelled state. -/

/-- A value stored in the cache through the empty interface. -/
inductive CacheVal where
  | videos : List Video → CacheVal
  | other : CacheVal
deriving DecidableEq

/-- An opaque upstream error value. -/
structure Err where
  msg : String
deriving DecidableEq

/-- The observable outcome of one Execute call: the returned value or
error, the cache state afterwards, whether the upstream client was
invoked, and whether a cache Set was performed. -/
structure ExecResult where
  result : Except Err (List Video)
  cache : Cache CacheVal
  clientCalled : Bool
  setPerformed : Bool

/-- The cache key Execute computes: GenerateKey("search", query, maxResults). -/
def searchKey (query : String) (maxResults : Int) : String :=
  GenerateKey [Part.str "search", Part.str query, Part.int64 maxResults]

/-- SearchVideos.Execute: cache lookup, upstream call on miss, error
propagated unchanged, result stored with the default TTL. -/
def Execute (client : String → Int → Except Err (List Video)) (c : Cache CacheVal)
    (query : String) (maxResults : Int) (now : Int) : ExecResult :=
  match get c (searchKey query maxResults) now with
  | some (CacheVal.videos vs) => ⟨Except.ok vs, c, false, false⟩
  | _ =>
    match client query maxResults with
    | Except.error e => ⟨Except.error e, c, true, false⟩
    | Except.ok vs =>
      ⟨Except.ok vs, set c (searchKey query maxResults) (CacheVal.videos vs) now, true, true⟩

/-! ### Association list lemmas -/

theorem mapGet_mapInsert_self (l : List (String × CacheItem α)) (k : String) (it : CacheItem α) :
    mapGet (mapInsert l k it) k = some it := by
  induction l with
  | nil => simp [mapInsert, mapGet]
  | cons p rest ih =>
    obtain ⟨k', it'⟩ := p
    by_cases h : k' = k
    · simp [mapInsert, mapGet, h]
    · simp [mapInsert, mapGet, h, ih]

theorem mapGet_mapInsert_ne (l : List (String × CacheItem α)) (k j : String) (it : CacheItem α)
    (h : j ≠ k) : mapGet (mapInsert l k it) j = mapGet l j := by
  induction l with
  | nil =>
    simp only [mapInsert, mapGet]
    rw [if_neg (fun hh => h (Eq.symm hh))]
  | cons p rest ih =>
    obtain ⟨k', it'⟩ := p
    by_cases hk : k' = k
    · subst hk
      simp only [mapInsert, if_pos rfl, mapGet]
      rw [if_neg (fun hh => h (Eq.symm hh)), if_neg (fun hh => h (Eq.symm hh))]
    · simp only [mapInsert, if_neg hk, mapGet]
      by_cases hj : k' = j
      · rw [if_pos hj, if_pos hj]
      · rw [if_neg hj, if_neg hj, ih]

theorem mapGet_eq_none_of_not_mem (l : List (String × CacheItem α)) (k : String)
    (h : k ∉ l.map Prod.fst) : mapGet l k = none := by
  induction l with
  | nil => rfl
  | cons p rest ih =>
    simp only [List.map_cons, List.mem_cons, not_or] at h
    obtain ⟨k', it'⟩ := p
    simp only [mapGet]
    rw [if_neg (fun hh => h.1 (Eq.symm hh)), ih h.2]

theorem mapGet_isSome_of_mem (l : List (String × CacheItem α)) (k : String)
    (h : k ∈ l.map Prod.fst) : (mapGet l k).isSome := by
  induction l with
  | nil => simp at h
  | cons p rest ih =>
    obtain ⟨k', it'⟩ := p
    by_cases hk : k' = k
    · simp [mapGet, hk]
    · simp only [List.map_cons, List.mem_cons] at h
      rcases h with h | h
      · exact absurd h.symm hk
      · simp [mapGet, hk, ih h]

theorem length_mapInsert_absent (l : List (String × CacheItem α)) (k : String) (it : CacheItem α)
    (h : mapGet l k = none) : (mapInsert l k it).length = l.length + 1 := by
  induction l with
  | nil => rfl
  | cons p rest ih =>
    obtain ⟨k', it'⟩ := p
    simp only [mapGet] at h
    by_cases hk : k' = k
    · rw [if_pos hk] at h; cases h
    · rw [if_neg hk] at h
      simp [mapInsert, hk, ih h]

theorem length_mapInsert_present (l : List (String × CacheItem α)) (k : String) (it : CacheItem α)
    (h : (mapGet l k).isSome) : (mapInsert l k it).length = l.length := by
  induction l with
  | nil => simp [mapGet] at h
  | cons p rest ih =>
    obtain ⟨k', it'⟩ := p
    by_cases hk : k' = k
    · simp [mapInsert, hk]
    · simp only [mapGet, if_neg hk] at h
      simp [mapInsert, hk, ih h]

theorem mapGet_mapDelete_ne (l : List (String × CacheItem α)) (k j : String)
    (h : j ≠ k) : mapGet (mapDelete l k) j = mapGet l j := by
  induction l with
  | nil => rfl
  | cons p rest ih =>
    obtain ⟨k', it'⟩ := p
    by_cases hk : k' = k
    · subst hk
      have hd : mapDelete ((k', it') :: rest) k' = rest := by simp [mapDelete]
      rw [hd]
      simp only [mapGet]
      rw [if_neg (fun hh => h (Eq.symm hh))]
    · simp only [mapDelete, if_neg hk, mapGet]
      by_cases hj : k' = j
      · rw [if_pos hj, if_pos hj]
      · rw [if_neg hj, if_neg hj, ih]

theorem mapGet_mapDelete_self (l : List (String × CacheItem α)) (k : String)
    (hnodup : (l.map Prod.fst).Nodup) : mapGet (mapDelete l k) k = none := by
  induction l with
  | nil => rfl
  | cons p rest ih =>
    obtain ⟨k', it'⟩ := p
    simp only [List.map_cons, List.nodup_cons] at hnodup
    by_cases hk : k' = k
    · subst hk
      simp only [mapDelete, if_pos rfl]
      exact mapGet_eq_none_of_not_mem rest k' hnodup.1
    · simp [mapDelete, mapGet, hk, ih hnodup.2]

theorem length_mapDelete_present (l : List (String × CacheItem α)) (k : String)
    (h : k ∈ l.map Prod.fst) : (mapDelete l k).length + 1 = l.length := by
  induction l with
  | nil => simp at h
  | cons p rest ih =>
    obtain ⟨k', it'⟩ := p
    by_cases hk : k' = k
    · simp [mapDelete, hk]
    · simp only [List.map_cons, List.mem_cons] at h
      rcases h with h | h
      · exact absurd h.symm hk
      · simp only [mapDelete, if_neg hk, List.length_cons]
        rw [← ih h]

/-! ### Cache operation lemmas -/

theorem evictOldest_maxEntries (c : Cache α) : (evictOldest c).maxEntries = c.maxEntries := by
  unfold evictOldest
  split <;> rfl

theorem evictOldest_defaultTTL (c : Cache α) : (evictOldest c).defaultTTL = c.defaultTTL := by
  unfold evictOldest
  split <;> rfl

theorem setWithTTL_eq (c : Cache α) (k : String) (v : α) (ttl now : Int) :
    setWithTTL c k v ttl now =
      if 0 < c.maxEntries ∧ c.maxEntries ≤ (c.items.length : Int) then
        { evictOldest c with items := mapInsert (evictOldest c).items k ⟨v, now + ttl, now⟩ }
      else { c with items := mapInsert c.items k ⟨v, now + ttl, now⟩ } := by
  unfold setWithTTL
  by_cases h : 0 < c.maxEntries ∧ c.maxEntries ≤ (c.items.length : Int)
  · rw [if_pos h, if_pos h]
  · rw [if_neg h, if_neg h]

theorem setWithTTL_maxEntries (c : Cache α) (k : String) (v : α) (ttl now : Int) :
    (setWithTTL c k v ttl now).maxEntries = c.maxEntries := by
  rw [setWithTTL_eq]
  split
  · exact evictOldest_maxEntries c
  · rfl

theorem setWithTTL_defaultTTL (c : Cache α) (k : String) (v : α) (ttl now : Int) :
    (setWithTTL c k v ttl now).defaultTTL = c.defaultTTL := by
  rw [setWithTTL_eq]
  split
  · exact evictOldest_defaultTTL c
  · rfl

theorem mapGet_setWithTTL_self (c : Cache α) (k : String) (v : α) (ttl now : Int) :
    mapGet (setWithTTL c k v ttl now).items k = some ⟨v, now + ttl, now⟩ := by
  rw [setWithTTL_eq]
  split
  · exact mapGet_mapInsert_self _ _ _
  · exact mapGet_mapInsert_self _ _ _

theorem get_setWithTTL_self (c : Cache α) (k : String) (v : α) (ttl now t : Int) :
    get (setWithTTL c k v ttl now) k t = if now + ttl < t then none else some v := by
  unfold get
  rw [mapGet_setWithTTL_self]

theorem setWithTTL_items_unbounded (c : Cache α) (k : String) (v : α) (ttl now : Int)
    (h : c.maxEntries ≤ 0) :
    (setWithTTL c k v ttl now).items = mapInsert c.items k ⟨v, now + ttl, now⟩ := by
  have hn : ¬(0 < c.maxEntries ∧ c.maxEntries ≤ (c.items.length : Int)) := by omega
  rw [setWithTTL_eq, if_neg hn]

/-! ### The eviction scan finds a minimal-createdAt entry (nonempty keys) -/

theorem foldl_scanStep_spec (l : List (String × CacheItem α)) (acc : String × Int)
    (hacc : acc.1 ≠ "") (hl : ∀ p ∈ l, p.1 ≠ "") :
    (l.foldl scanStep acc).1 ≠ "" ∧
    (l.foldl scanStep acc).2 ≤ acc.2 ∧
    (∀ p ∈ l, (l.foldl scanStep acc).2 ≤ p.2.createdAt) ∧
    (l.foldl scanStep acc = acc ∨ ∃ p ∈ l, l.foldl scanStep acc = (p.1, p.2.createdAt)) := by
  induction l generalizing acc with
  | nil => exact ⟨hacc, le_refl _, by simp, Or.inl rfl⟩
  | cons q rest ih =>
    have hq : q.1 ≠ "" := hl q (List.mem_cons_self _ _)
    have hrest : ∀ p ∈ rest, p.1 ≠ "" := fun p hp => hl p (List.mem_cons_of_mem _ hp)
    simp only [List.foldl_cons]
    by_cases hlt : q.2.createdAt < acc.2
    · have hstep : scanStep acc q = (q.1, q.2.createdAt) := by
        unfold scanStep
        rw [if_pos (Or.inr hlt)]
      rw [hstep]
      obtain ⟨h1, h2, h3, h4⟩ := ih (q.1, q.2.createdAt) hq hrest
      refine ⟨h1, le_of_lt (lt_of_le_of_lt h2 hlt), ?_, ?_⟩
      · intro p hp
        rcases List.mem_cons.mp hp with rfl | hp
        · exact h2
        · exact h3 p hp
      · rcases h4 with h4 | ⟨p, hp, h4⟩
        · exact Or.inr ⟨q, List.mem_cons_self _ _, h4⟩
        · exact Or.inr ⟨p, List.mem_cons_of_mem _ hp, h4⟩
    · have hstep : scanStep acc q = acc := by
        unfold scanStep
        rw [if_neg (not_or.mpr ⟨hacc, hlt⟩)]
      rw [hstep]
      obtain ⟨h1, h2, h3, h4⟩ := ih acc hacc hrest
      refine ⟨h1, h2, ?_, ?_⟩
      · intro p hp
        rcases List.mem_cons.mp hp with rfl | hp
        · exact h2.trans (not_lt.mp hlt)
        · exact h3 p hp
      · rcases h4 with h4 | ⟨p, hp, h4⟩
        · exact Or.inl h4
        · exact Or.inr ⟨p, List.mem_cons_of_mem _ hp, h4⟩

theorem oldestScan_spec (l : List (String × CacheItem α)) (hne : l ≠ [])
    (hl : ∀ p ∈ l, p.1 ≠ "") :
    (oldestScan l).1 ≠ "" ∧
    (∃ p ∈ l, p.1 = (oldestScan l).1 ∧ p.2.createdAt = (oldestScan l).2) ∧
    (∀ p ∈ l, (oldestScan l).2 ≤ p.2.createdAt) := by
  match l, hne with
  | q :: rest, _ =>
    have hq : q.1 ≠ "" := hl q (List.mem_cons_self _ _)
    have hrest : ∀ p ∈ rest, p.1 ≠ "" := fun p hp => hl p (List.mem_cons_of_mem _ hp)
    have hstep : scanStep ("", 0) q = (q.1, q.2.createdAt) := by
      unfold scanStep
      rw [if_pos (Or.inl rfl)]
    unfold oldestScan
    simp only [List.foldl_cons]
    rw [hstep]
    obtain ⟨h1, h2, h3, h4⟩ := foldl_scanStep_spec rest (q.1, q.2.createdAt) hq hrest
    refine ⟨h1, ?_, ?_⟩
    · rcases h4 with h4 | ⟨p, hp, h4⟩
      · exact ⟨q, List.mem_cons_self _ _, by rw [h4]; exact ⟨rfl, rfl⟩⟩
      · exact ⟨p, List.mem_cons_of_mem _ hp, by rw [h4]; exact ⟨rfl, rfl⟩⟩
    · intro p hp
      rcases List.mem_cons.mp hp with rfl | hp
      · exact h2
      · exact h3 p hp

theorem evictOldest_items (c : Cache α) (hne : c.items ≠ [])
    (hl : ∀ p ∈ c.items, p.1 ≠ "") :
    (evictOldest c).items = mapDelete c.items (oldestScan c.items).1 := by
  obtain ⟨h1, _, _⟩ := oldestScan_spec c.items hne hl
  unfold evictOldest
  rw [if_pos h1]

/-! ### Set with the default TTL, and sequences of Sets -/

theorem set_maxEntries (c : Cache α) (k : String) (v : α) (now : Int) :
    (set c k v now).maxEntries = c.maxEntries :=
  setWithTTL_maxEntries c k v c.defaultTTL now

theorem set_defaultTTL (c : Cache α) (k : String) (v : α) (now : Int) :
    (set c k v now).defaultTTL = c.defaultTTL :=
  setWithTTL_defaultTTL c k v c.defaultTTL now

theorem set_items_unbounded (c : Cache α) (k : String) (v : α) (now : Int)
    (h : c.maxEntries ≤ 0) :
    (set c k v now).items = mapInsert c.items k ⟨v, now + c.defaultTTL, now⟩ :=
  setWithTTL_items_unbounded c k v c.defaultTTL now h

theorem get_set_self (c : Cache α) (k : String) (v : α) (now t : Int) :
    get (set c k v now) k t = if now + c.defaultTTL < t then none else some v :=
  get_setWithTTL_self c k v c.defaultTTL now t

theorem mapGet_setAll_not_mem (ops : List (String × α × Int)) (c : Cache α)
    (hmax : c.maxEntries ≤ 0) (j : String) (hj : j ∉ ops.map Prod.fst) :
    mapGet (setAll c ops).items j = mapGet c.items j := by
  induction ops generalizing c with
  | nil => rfl
  | cons op rest ih =>
    simp only [List.map_cons, List.mem_cons, not_or] at hj
    simp only [setAll]
    have hm : (set c op.1 op.2.1 op.2.2).maxEntries ≤ 0 := by
      rw [set_maxEntries]; exact hmax
    rw [ih (set c op.1 op.2.1 op.2.2) hm hj.2, set_items_unbounded c _ _ _ hmax,
        mapGet_mapInsert_ne _ _ _ _ hj.1]

theorem setAll_unbounded (ops : List (String × α × Int)) (c : Cache α)
    (hmax : c.maxEntries ≤ 0)
    (hnodup : (ops.map Prod.fst).Nodup)
    (habs : ∀ op ∈ ops, mapGet c.items op.1 = none) :
    (setAll c ops).items.length = c.items.length + ops.length ∧
    ∀ op ∈ ops, mapGet (setAll c ops).items op.1 =
      some ⟨op.2.1, op.2.2 + c.defaultTTL, op.2.2⟩ := by
  induction ops generalizing c with
  | nil => exact ⟨rfl, by simp⟩
  | cons op rest ih =>
    obtain ⟨k, v, t⟩ := op
    simp only [List.map_cons, List.nodup_cons] at hnodup
    have hm : (set c k v t).maxEntries ≤ 0 := by rw [set_maxEntries]; exact hmax
    have hitems : (set c k v t).items = mapInsert c.items k ⟨v, t + c.defaultTTL, t⟩ :=
      set_items_unbounded c k v t hmax
    have httl : (set c k v t).defaultTTL = c.defaultTTL := set_defaultTTL c k v t
    have hlen : (set c k v t).items.length = c.items.length + 1 := by
      rw [hitems]
      exact length_mapInsert_absent _ _ _ (habs (k, v, t) (List.mem_cons_self _ _))
    have habs' : ∀ op ∈ rest, mapGet (set c k v t).items op.1 = none := by
      intro op hop
      have hne : op.1 ≠ k := by
        intro he
        exact hnodup.1 (by rw [← he]; exact List.mem_map_of_mem Prod.fst hop)
      rw [hitems, mapGet_mapInsert_ne _ _ _ _ hne]
      exact habs op (List.mem_cons_of_mem _ hop)
    obtain ⟨ihlen, ihget⟩ := ih (set c k v t) hm hnodup.2 habs'
    constructor
    · simp only [setAll]
      rw [ihlen, hlen, List.length_cons]
      omega
    · intro op hop
      rcases List.mem_cons.mp hop with rfl | hop
      · simp only [setAll]
        rw [mapGet_setAll_not_mem rest _ hm k hnodup.1, hitems, mapGet_mapInsert_self]
      · simp only [setAll]
        rw [ihget op hop, httl]

/-! ### Claims -/

/-- C1 counterexample: the claim says a Get at elapsed time exactly t after
insertion already returns found=false, but Get uses a strict After check,
so at elapsed time e = t (now = expiresAt) the value is still returned:
SetWithTTL("k", 42, 5) at time 0 followed by Get("k") at time 5 yields 42. -/
theorem C1_counterexample :
    get (setWithTTL (NewCache Nat 10 100) "k" 42 5 0) "k" 5 = some 42 := by
  decide

/-- C1 (amended): after SetWithTTL(k, v, t) with t > 0 at time now, Get(k)
at time now + e returns (v, true) for every e ≤ t and (_, false) for every
e > t: the entry is logically absent only once now > expiresAt, strictly
after the expiration instant, so at now = expiresAt it is still present. -/
theorem C1_ttl_boundary (c : Cache α) (k : String) (v : α) (t now e : Int)
    (ht : 0 < t) :
    get (setWithTTL c k v t now) k (now + e) = if e ≤ t then some v else none := by
  rw [get_setWithTTL_self]
  by_cases h : e ≤ t
  · rw [if_neg (by omega), if_pos h]
  · rw [if_pos (by omega), if_neg h]

/-- C1 witness: the amended theorem applied at t = 5, e = 3. -/
theorem C1_ttl_boundary_witness :
    get (setWithTTL (NewCache Nat 10 100) "k" 42 5 0) "k" (0 + 3) =
      if (3 : Int) ≤ 5 then some 42 else none :=
  C1_ttl_boundary (NewCache Nat 10 100) "k" 42 5 0 3 (by decide)

/-- C2: the code violates the Len() <= maxEntries bound.  evictOldest uses
the empty string both as a map key and as its "nothing picked yet"
sentinel: when the only (hence oldest) entry has key "", the final
oldestKey != "" guard fails, nothing is deleted, and the subsequent insert
leaves 2 entries in a cache with maxEntries = 1. -/
theorem C2_capacity_violation :
    len (setWithTTL (setWithTTL (NewCache Nat 1 100) "" 0 100 0) "a" 1 100 1) = 2 := by
  decide

/-- C3 counterexample: with maxEntries = 2 and entries "a" (t=0) and "b"
(t=1), a Set of the already-present key "b" at t=2 still runs the eviction
scan (the code never checks key presence), so the unrelated entry "a" is
removed and Len drops to 1 — contradicting the claim that a Set of an
existing key replaces in place and never removes any other entry. -/
theorem C3_counterexample :
    get (setWithTTL (setWithTTL (setWithTTL (NewCache Nat 2 100) "a" 1 100 0)
          "b" 2 100 1) "b" 3 100 2) "a" 2 = none ∧
    len (setWithTTL (setWithTTL (setWithTTL (NewCache Nat 2 100) "a" 1 100 0)
          "b" 2 100 1) "b" 3 100 2) = 1 := by
  decide

/-- C3 (amended): eviction runs on every Set at capacity regardless of key
presence.  When maxEntries > 0, len(items) >= maxEntries, all keys are
nonempty and pairwise distinct, the key k being set is present, and the
scan winner differs from k, then after SetWithTTL the minimal-createdAt
entry (the scan winner, which is a genuine entry of minimal createdAt) is
gone, k holds the new item, and the entry count has dropped by one. -/
theorem C3_eviction_on_existing_key (c : Cache α) (k : String) (v : α) (ttl now : Int)
    (hmax : 0 < c.maxEntries) (hfull : c.maxEntries ≤ (c.items.length : Int))
    (hkeys : ∀ p ∈ c.items, p.1 ≠ "")
    (hnodup : (c.items.map Prod.fst).Nodup)
    (hk : k ∈ c.items.map Prod.fst)
    (ho : (oldestScan c.items).1 ≠ k) :
    mapGet (setWithTTL c k v ttl now).items (oldestScan c.items).1 = none ∧
    mapGet (setWithTTL c k v ttl now).items k = some ⟨v, now + ttl, now⟩ ∧
    (setWithTTL c k v ttl now).items.length + 1 = c.items.length ∧
    (∃ p ∈ c.items, p.1 = (oldestScan c.items).1 ∧ p.2.createdAt = (oldestScan c.items).2) ∧
    (∀ p ∈ c.items, (oldestScan c.items).2 ≤ p.2.createdAt) := by
  have hne : c.items ≠ [] := by
    intro h
    rw [h] at hfull
    simp only [List.length_nil, Nat.cast_zero] at hfull
    omega
  obtain ⟨hs1, hs2, hs3⟩ := oldestScan_spec c.items hne hkeys
  have hitems : (setWithTTL c k v ttl now).items =
      mapInsert (mapDelete c.items (oldestScan c.items).1) k ⟨v, now + ttl, now⟩ := by
    rw [setWithTTL_eq, if_pos ⟨hmax, hfull⟩]
    show mapInsert (evictOldest c).items k _ = _
    rw [evictOldest_items c hne hkeys]
  have homem : (oldestScan c.items).1 ∈ c.items.map Prod.fst := by
    obtain ⟨p, hp, hp1, _⟩ := hs2
    rw [← hp1]
    exact List.mem_map_of_mem Prod.fst hp
  refine ⟨?_, ?_, ?_, hs2, hs3⟩
  · rw [hitems, mapGet_mapInsert_ne _ _ _ _ ho, mapGet_mapDelete_self _ _ hnodup]
  · rw [hitems, mapGet_mapInsert_self]
  · rw [hitems]
    have hkdel : (mapGet (mapDelete c.items (oldestScan c.items).1) k).isSome := by
      rw [mapGet_mapDelete_ne _ _ _ (fun hh => ho (Eq.symm hh))]
      exact mapGet_isSome_of_mem _ _ hk
    rw [length_mapInsert_present _ _ _ hkdel, length_mapDelete_present _ _ homem]

/-- C3 witness: the amended theorem on the two-entry cache
[("a", created 0), ("b", created 1)] at capacity 2, re-setting "b". -/
theorem C3_eviction_witness :
    mapGet (setWithTTL (⟨[("a", ⟨1, 100, 0⟩), ("b", ⟨2, 101, 1⟩)], 2, 100⟩ : Cache Nat)
        "b" 9 100 2).items (oldestScan [("a", (⟨1, 100, 0⟩ : CacheItem Nat)), ("b", ⟨2, 101, 1⟩)]).1 = none ∧
    mapGet (setWithTTL (⟨[("a", ⟨1, 100, 0⟩), ("b", ⟨2, 101, 1⟩)], 2, 100⟩ : Cache Nat)
        "b" 9 100 2).items "b" = some ⟨9, 2 + 100, 2⟩ ∧
    (setWithTTL (⟨[("a", ⟨1, 100, 0⟩), ("b", ⟨2, 101, 1⟩)], 2, 100⟩ : Cache Nat)
        "b" 9 100 2).items.length + 1 =
      ([("a", (⟨1, 100, 0⟩ : CacheItem Nat)), ("b", ⟨2, 101, 1⟩)]).length ∧
    (∃ p ∈ [("a", (⟨1, 100, 0⟩ : CacheItem Nat)), ("b", ⟨2, 101, 1⟩)],
      p.1 = (oldestScan [("a", (⟨1, 100, 0⟩ : CacheItem Nat)), ("b", ⟨2, 101, 1⟩)]).1 ∧
      p.2.createdAt = (oldestScan [("a", (⟨1, 100, 0⟩ : CacheItem Nat)), ("b", ⟨2, 101, 1⟩)]).2) ∧
    (∀ p ∈ [("a", (⟨1, 100, 0⟩ : CacheItem Nat)), ("b", ⟨2, 101, 1⟩)],
      (oldestScan [("a", (⟨1, 100, 0⟩ : CacheItem Nat)), ("b", ⟨2, 101, 1⟩)]).2 ≤ p.2.createdAt) :=
  C3_eviction_on_existing_key (⟨[("a", ⟨1, 100, 0⟩), ("b", ⟨2, 101, 1⟩)], 2, 100⟩ : Cache Nat)
    "b" 9 100 2 (by decide) (by decide) (by decide) (by decide) (by decide) (by decide)

/-- C4: the claim (distinct numeric limit parts always yield distinct
keys) fails on the code.  toString converts a numeric part through
string(rune(val)); both 55296 (0xD800) and 55297 (0xD801) are surrogate
code points, which string() replaces by U+FFFD, so the two tuples hash
identical byte material and GenerateKey returns the same key.  The spec
itself calls the string(rune(value)) conversion a correctness bug that an
implementer must fix, so the code, not the claim, is wrong. -/
theorem C4_rune_collision :
    GenerateKey [Part.str "search", Part.str "q", Part.int64 55296] =
      GenerateKey [Part.str "search", Part.str "q", Part.int64 55297] := by
  have h : (([Part.str "search", Part.str "q", Part.int64 55296].map
        (fun p => strBytes (Zentube.toString p))).join : List Nat) =
      ([Part.str "search", Part.str "q", Part.int64 55297].map
        (fun p => strBytes (Zentube.toString p))).join := by decide
  unfold GenerateKey
  rw [h]

/-- C8: the claim (unsupported part types fail fast) fails on the code:
toString silently returns "" for any part that is not a string, int or
int64, so a tuple containing an unsupported part (for example a bool)
hashes to exactly the same key as the tuple without it — the silent
collision the spec orders implementers to avoid. -/
theorem C8_unsupported_silent_empty :
    GenerateKey [Part.str "search", Part.unsupported] = GenerateKey [Part.str "search"] := by
  have h : (([Part.str "search", Part.unsupported].map
        (fun p => strBytes (Zentube.toString p))).join : List Nat) =
      ([Part.str "search"].map (fun p => strBytes (Zentube.toString p))).join := by decide
  unfold GenerateKey
  rw [h]

/-- C10: GenerateKey hashes the bare concatenation of the parts with no
separator and no arity encoding, so GenerateKey("ab", "c"),
GenerateKey("a", "bc") and GenerateKey("abc") all coincide. -/
theorem C10_concatenation_ambiguity :
    GenerateKey [Part.str "ab", Part.str "c"] = GenerateKey [Part.str "a", Part.str "bc"] ∧
    GenerateKey [Part.str "abc"] = GenerateKey [Part.str "ab", Part.str "c"] := by
  constructor
  · have h : (([Part.str "ab", Part.str "c"].map
          (fun p => strBytes (Zentube.toString p))).join : List Nat) =
        ([Part.str "a", Part.str "bc"].map (fun p => strBytes (Zentube.toString p))).join := by
      decide
    unfold GenerateKey
    rw [h]
  · have h : (([Part.str "abc"].map
          (fun p => strBytes (Zentube.toString p))).join : List Nat) =
        ([Part.str "ab", Part.str "c"].map (fun p => strBytes (Zentube.toString p))).join := by
      decide
    unfold GenerateKey
    rw [h]

/-- C7: SetWithTTL with ttl <= 0 is a total operation (the model is a
total function, as the Go code is panic-free here) and stores an entry
whose expiration is not after now, so any Get at a strictly later time
now + e (e > 0) finds it already expired and returns found=false. -/
theorem C7_nonpositive_ttl (c : Cache α) (k : String) (v : α) (ttl now e : Int)
    (httl : ttl ≤ 0) (he : 0 < e) :
    get (setWithTTL c k v ttl now) k (now + e) = none := by
  rw [get_setWithTTL_self, if_pos (by omega)]

/-- C7 witness: ttl = 0 at time 0; Get at time 1 misses. -/
theorem C7_nonpositive_ttl_witness :
    get (setWithTTL (NewCache Nat 10 100) "k" 5 0 0) "k" (0 + 1) = none :=
  C7_nonpositive_ttl (NewCache Nat 10 100) "k" 5 0 0 1 (by decide) (by decide)

/-- C9: with maxEntries <= 0 the eviction guard maxEntries > 0 is never
satisfied, so no Set ever evicts: after any sequence of Sets with distinct
fresh keys, the entry count is the old count plus the number of Sets and
every inserted entry is still physically present with its inserted item. -/
theorem C9_unbounded_no_eviction (ops : List (String × α × Int)) (c : Cache α)
    (hmax : c.maxEntries ≤ 0)
    (hnodup : (ops.map Prod.fst).Nodup)
    (habs : ∀ op ∈ ops, mapGet c.items op.1 = none) :
    (setAll c ops).items.length = c.items.length + ops.length ∧
    ∀ op ∈ ops, mapGet (setAll c ops).items op.1 =
      some ⟨op.2.1, op.2.2 + c.defaultTTL, op.2.2⟩ :=
  setAll_unbounded ops c hmax hnodup habs

/-- C9 witness: three distinct keys inserted into a maxEntries = 0 cache;
the count reaches 3 and all three keys are present. -/
theorem C9_unbounded_witness :
    (setAll (NewCache Nat 0 100) [("a", 1, 0), ("b", 2, 1), ("c", 3, 2)]).items.length =
      (NewCache Nat 0 100).items.length + ([("a", 1, 0), ("b", 2, 1), ("c", 3, 2)] :
        List (String × Nat × Int)).length ∧
    ∀ op ∈ ([("a", 1, 0), ("b", 2, 1), ("c", 3, 2)] : List (String × Nat × Int)),
      mapGet (setAll (NewCache Nat 0 100) [("a", 1, 0), ("b", 2, 1), ("c", 3, 2)]).items op.1 =
        some ⟨op.2.1, op.2.2 + (NewCache Nat 0 100).defaultTTL, op.2.2⟩ :=
  C9_unbounded_no_eviction [("a", 1, 0), ("b", 2, 1), ("c", 3, 2)] (NewCache Nat 0 100)
    (by decide) (by decide) (by decide)

/-- C5: when the cache misses and the upstream client returns an error,
Execute returns exactly that error value with no result, performs no cache
Set, and leaves the cache state exactly as it was. -/
theorem C5_error_passthrough (client : String → Int → Except Err (List Video))
    (c : Cache CacheVal) (query : String) (maxResults now : Int) (e : Err)
    (hmiss : get c (searchKey query maxResults) now = none)
    (herr : client query maxResults = Except.error e) :
    Execute client c query maxResults now = ⟨Except.error e, c, true, false⟩ := by
  unfold Execute
  rw [hmiss, herr]

/-- C5 witness: a client that always fails, on an empty cache. -/
theorem C5_error_passthrough_witness :
    Execute (fun _ _ => Except.error ⟨"boom"⟩) (NewCache CacheVal 1000 300) "golang" 10 0 =
      ⟨Except.error ⟨"boom"⟩, NewCache CacheVal 1000 300, true, false⟩ :=
  C5_error_passthrough (fun _ _ => Except.error ⟨"boom"⟩) (NewCache CacheVal 1000 300)
    "golang" 10 0 ⟨"boom"⟩ rfl rfl

/-- C6: two sequential Execute calls with the same (query, maxResults),
the first a miss answered successfully upstream and the second within the
TTL window of the entry the first stored, call the upstream client exactly
once: the first call invokes it and Sets the cache, the second returns the
cached result set without invoking the client, without a second Set, and
without touching the cache. -/
theorem C6_single_upstream_call (client : String → Int → Except Err (List Video))
    (c : Cache CacheVal) (query : String) (maxResults : Int) (t1 t2 : Int)
    (vs : List Video)
    (hmiss : get c (searchKey query maxResults) t1 = none)
    (hok : client query maxResults = Except.ok vs)
    (hwin : t2 < t1 + c.defaultTTL) :
    (Execute client c query maxResults t1).clientCalled = true ∧
    (Execute client c query maxResults t1).setPerformed = true ∧
    Execute client (Execute client c query maxResults t1).cache query maxResults t2 =
      ⟨Except.ok vs, (Execute client c query maxResults t1).cache, false, false⟩ := by
  have h1 : Execute client c query maxResults t1 =
      ⟨Except.ok vs, set c (searchKey query maxResults) (CacheVal.videos vs) t1, true, true⟩ := by
    unfold Execute
    rw [hmiss, hok]
  have hget : get (set c (searchKey query maxResults) (CacheVal.videos vs) t1)
      (searchKey query maxResults) t2 = some (CacheVal.videos vs) := by
    rw [get_set_self, if_neg (by omega)]
  refine ⟨by rw [h1], by rw [h1], ?_⟩
  rw [h1]
  unfold Execute
  rw [hget]

/-- C6 witness: a successful client on an empty cache with TTL 300; the
second call at time 5 is served from the cache. -/
theorem C6_single_upstream_call_witness :
    (Execute (fun _ _ => Except.ok [⟨"id1", "t", "ch", 0, "th"⟩])
        (NewCache CacheVal 1000 300) "golang" 10 0).clientCalled = true ∧
    (Execute (fun _ _ => Except.ok [⟨"id1", "t", "ch", 0, "th"⟩])
        (NewCache CacheVal 1000 300) "golang" 10 0).setPerformed = true ∧
    Execute (fun _ _ => Except.ok [⟨"id1", "t", "ch", 0, "th"⟩])
        (Execute (fun _ _ => Except.ok [⟨"id1", "t", "ch", 0, "th"⟩])
          (NewCache CacheVal 1000 300) "golang" 10 0).cache "golang" 10 5 =
      ⟨Except.ok [⟨"id1", "t", "ch", 0, "th"⟩],
        (Execute (fun _ _ => Except.ok [⟨"id1", "t", "ch", 0, "th"⟩])
          (NewCache CacheVal 1000 300) "golang" 10 0).cache, false, false⟩ :=
  C6_single_upstream_call (fun _ _ => Except.ok [⟨"id1", "t", "ch", 0, "th"⟩])
    (NewCache CacheVal 1000 300) "golang" 10 0 5 [⟨"id1", "t", "ch", 0, "th"⟩]
    rfl rfl (by decide)

end Zentube

